import Mathlib

/-!
Verification of the big-daddy distributed SQL router against its
natural-language specification.

The development shallowly embeds the TypeScript sources:

* `packages/big-daddy/src/engine/conductor/utils/helpers.ts`
  (`hashToShardId`, `injectVirtualShard`, `insertColumn`,
   `injectWhereFilter`, `mergeResultsSimple`, `mergeAggregations`,
   `mergeAggregationColumn`, `isVirtualShardExplicitlySelected`,
   `extractKeyValueFromRow`, `extractValueFromExpression`)
* `packages/big-daddy/src/engine/conductor/crud/update.ts`
  (`buildIndexKeyValue`, `dedupeUpdatedRowsToEvents`)
* `packages/vitess-for-durable-objects/src/Conductor/Conductor.ts`
  (`determineShardTargets`, `getShardIdForInsert`, `getShardIdFromWhere`)
* `dist/parser.js` (`extractQuotedLiterals` and the string branch of
  `parsePrimary`)
* the queue consumer's `processBuildIndexJob` value-collection loop.

JavaScript runtime values that flow through these functions are modeled
by the inductive `JSVal` (strings, integral numbers, booleans, `null`
and `undefined`); JS objects (rows) are association lists with
last-write-wins insertion, and JS `Map`s are association lists in
insertion order.
-/

namespace BigDaddy

/-- Model of the JavaScript values that the router passes around
(`SqlParam` plus `undefined`).  Numbers are restricted to the integral
values that shard keys and row counts take in the sources. -/
inductive JSVal where
  | null
  | undef
  | str (s : String)
  | int (n : Int)
  | bool (b : Bool)
  deriving DecidableEq, Repr

/-- JS `String(v)` on a `JSVal` (for integral numbers JS prints the
decimal representation, which `toString` on `Int` matches). -/
def jsString : JSVal → String
  | .null => "null"
  | .undef => "undefined"
  | .str s => s
  | .int n => toString n
  | .bool b => if b then "true" else "false"

/-- `v === null || v === undefined`, the nullish test used by every
index key builder (a missing object key reads as `undefined`). -/
def isNullish : Option JSVal → Prop
  | none => True
  | some .null => True
  | some .undef => True
  | some _ => False

instance : DecidablePred isNullish := by
  intro v
  cases v with
  | none => exact .isTrue trivial
  | some w => cases w <;> first | exact .isTrue trivial | exact .isFalse (fun h => h)

/-! ## UTF-16 code units

`hashToShardId` folds over `strValue.charCodeAt(i)`, i.e. over the
UTF-16 code units of the string.  Lean strings are sequences of Unicode
scalar values, so characters above U+FFFF expand to a surrogate pair. -/

/-- UTF-16 code units of a single Unicode scalar value. -/
def utf16UnitsOfChar (c : Char) : List Nat :=
  let n := c.toNat
  if n < 0x10000 then [n]
  else [0xD800 + (n - 0x10000) / 0x400, 0xDC00 + (n - 0x10000) % 0x400]

/-- UTF-16 code units of a string, in order. -/
def utf16Units (s : String) : List Nat :=
  s.data.flatMap utf16UnitsOfChar

/-! ## The shard hash (`helpers.ts`, `hashToShardId`)

```ts
export function hashToShardId(value: SqlParam, numShards: number): number {
  const strValue = String(value);
  let hash = 0;
  for (let i = 0; i < strValue.length; i++) {
    hash = (hash << 5) - hash + strValue.charCodeAt(i);
    hash = hash & hash;
  }
  return Math.abs(hash) % numShards;
}
```

JS bitwise operators work on signed 32-bit integers: `hash << 5` first
coerces `hash` with ToInt32 and wraps the shift, and `hash & hash` is
exactly ToInt32 of the intermediate sum.  `toInt32` below is ToInt32 on
mathematical integers. -/

/-- ECMAScript ToInt32: wrap an integer into `[-2147483648, 2147483648)`
(numerals are written out because `2 ^ 31` pow-terms make kernel
reduction of these definitions intractable). -/
def toInt32 (x : Int) : Int :=
  (x + 2147483648) % 4294967296 - 2147483648

/-- One iteration of the hash loop on the signed 32-bit accumulator:
`hash = (hash << 5) - hash + c; hash = hash & hash`. -/
def hashStep (h : Int) (c : Nat) : Int :=
  toInt32 (toInt32 (h * 32) - h + c)

/-- The signed accumulator after folding a whole string. -/
def hashOfString (s : String) : Int :=
  (utf16Units s).foldl hashStep 0

/-- `hashToShardId` from `helpers.ts`: fold, then `Math.abs(hash) % numShards`. -/
def hashToShardId (value : JSVal) (numShards : Nat) : Nat :=
  (hashOfString (jsString value)).natAbs % numShards

/-! Spec-side rendering of the hash rule (§4.4 of the spec):
`h ← 0; for each UTF-16 code unit c: h ← ((h << 5) − h + c) & 0xFFFFFFFF`;
`shard = |h| mod num_shards`.  Working on the 32-bit pattern as an
unsigned number, one step of the masked fold is `(31·h + c) mod 2^32`,
and `|h|` is the absolute value of the pattern's two's-complement
reading. -/

/-- One spec-side step on the unsigned 32-bit pattern: masking the
update with `0xFFFFFFFF` keeps the bit pattern `(31·h + c) mod 2^32`. -/
def specHashStep (h c : Nat) : Nat :=
  (31 * h + c) % 4294967296

/-- The unsigned 32-bit pattern after folding a whole string. -/
def specHashOfString (s : String) : Nat :=
  (utf16Units s).foldl specHashStep 0

/-- `|h|`: absolute value of the two's-complement reading of a 32-bit
pattern. -/
def specAbs (h : Nat) : Nat :=
  if h < 2147483648 then h else 4294967296 - h

/-- The shard id as the spec's words describe it:
`shard = |h| mod num_shards`. -/
def specShardId (value : JSVal) (numShards : Nat) : Nat :=
  specAbs (specHashOfString (jsString value)) % numShards

/-- A signed accumulator fed through one loop iteration tracks the
unsigned 32-bit pattern fed through one spec-side step. -/
lemma hashStep_spec (u : Nat) (c : Nat) :
    hashStep (toInt32 u) c = toInt32 (specHashStep u c) := by
  unfold hashStep specHashStep toInt32
  push_cast
  omega

lemma hashFold_spec (l : List Nat) :
    ∀ u : Nat, l.foldl hashStep (toInt32 u) = toInt32 ((l.foldl specHashStep u : Nat) : Int) := by
  induction l with
  | nil => intro u; rw [List.foldl_nil, List.foldl_nil]
  | cons c t ih =>
      intro u
      rw [List.foldl_cons, List.foldl_cons, hashStep_spec u c]
      exact ih _

lemma specHashFold_lt (l : List Nat) :
    ∀ u : Nat, u < 4294967296 → l.foldl specHashStep u < 4294967296 := by
  induction l with
  | nil => intro u hu; rw [List.foldl_nil]; exact hu
  | cons c t ih =>
      intro u hu
      rw [List.foldl_cons]
      exact ih _ (Nat.mod_lt _ (by norm_num))

lemma natAbs_toInt32 (u : Nat) (hu : u < 4294967296) :
    (toInt32 u).natAbs = specAbs u := by
  unfold toInt32 specAbs
  split <;> omega

lemma toInt32_zero : (0 : Int) = toInt32 ((0 : Nat) : Int) := by
  unfold toInt32; omega

/-- C2. For every value `v` and every shard count `N`, the routing
shard id computed by `hashToShardId` (the signed 32-bit JS fold
`hash = (hash << 5) - hash + c; hash = hash & hash` over the UTF-16
code units of `String(v)`, then `Math.abs(hash) % numShards`) equals
the spec's fold `h ← ((h << 5) − h + c) & 0xFFFFFFFF` followed by
`|h| mod num_shards`, read on the 32-bit pattern. -/
theorem hashToShardId_implements_spec_fold (v : JSVal) (N : Nat) :
    hashToShardId v N = specShardId v N := by
  unfold hashToShardId specShardId hashOfString specHashOfString
  rw [toInt32_zero, hashFold_spec,
    natAbs_toInt32 _ (specHashFold_lt _ 0 (by norm_num))]

/-! ## The vitess Conductor's shard routing
(`packages/vitess-for-durable-objects/src/Conductor/Conductor.ts`) -/

namespace Vitess

/-- The expression nodes `getShardIdFromWhere`, `getShardIdForInsert`
and `extractValueFromExpression` inspect (`ColumnReference`, `Literal`,
`Placeholder`, `BinaryOperation`; every other node shape falls into
`other`). -/
inductive Expr where
  | literal (value : JSVal)
  | placeholder (parameterIndex : Nat)
  | columnReference (name : String)
  | binaryOperation (operator : String) (left right : Expr)
  | other
  deriving DecidableEq, Repr

/-- The statement shapes `determineShardTargets` distinguishes: INSERT
with an optional column list and row tuples, and SELECT/UPDATE/DELETE
with an optional WHERE clause (`extractWhereClause`). -/
inductive Statement where
  | select (whereClause : Option Expr)
  | update (whereClause : Option Expr)
  | delete (whereClause : Option Expr)
  | insert (columns : Option (List String)) (values : List (List Expr))
  deriving DecidableEq, Repr

/-- A `table_shards` row. -/
structure TableShard where
  table_name : String
  shard_id : Nat
  node_id : String
  deriving DecidableEq, Repr

/-- The slice of `TableMetadata` the router reads. -/
structure TableMetadata where
  shard_key : String
  deriving DecidableEq, Repr

/-- `extractValueFromExpression` (`ast-utils`, the module the
Conductor imports): a `Literal` yields its value; a `Placeholder`
yields `params[paramIndex]` only when
`paramIndex !== undefined && paramIndex < params.length` (the index is
a `Nat` here, so never undefined); every other node, and an
out-of-range placeholder, falls through to the final `return null`. -/
def extractValueFromExpression (e : Expr) (params : List JSVal) : JSVal :=
  match e with
  | .literal v => v
  | .placeholder i => params.getD i .null
  | _ => .null

/-- Modelled from the spec: the Conductor's `hashToShard`
(`./utils/sharding`, a file not present in the sources) applies the
hash rule of spec §4.4, the same string-fold implemented by
`hashToShardId` ("planner and Executor must use the same hash
implementation"). -/
def hashToShard (v : JSVal) (numShards : Nat) : Nat :=
  hashToShardId v numShards

/-- `getShardIdForInsert`: locate the shard key in the INSERT column
list (error when absent or when there is no column list), take the
shard-key expression of the *first* row of values, resolve it, and
hash it; unresolvable (`null`/`undefined`) values are an error. -/
def getShardIdForInsert (columns : Option (List String))
    (values : List (List Expr)) (tm : TableMetadata) (numShards : Nat)
    (params : List JSVal) : Except String Nat :=
  match columns with
  | none => .error ("Shard key '" ++ tm.shard_key ++ "' not found in INSERT columns")
  | some cols =>
    match cols.findIdx? (fun c => c = tm.shard_key) with
    | none => .error ("Shard key '" ++ tm.shard_key ++ "' not found in INSERT columns")
    | some shardKeyIndex =>
      match values with
      | [] => .error "INSERT statement has no values"
      | row0 :: _ =>
        let value : JSVal :=
          match row0.get? shardKeyIndex with
          | none => .null
          | some e => extractValueFromExpression e params
        if value = .null ∨ value = .undef then
          .error "Could not resolve shard key value from parameters"
        else
          .ok (hashToShard value numShards)

/-- The `leftIsShardKey` / `rightIsShardKey` test of
`getShardIdFromWhere`: the side is a `ColumnReference` whose name is
the table's `shard_key`. -/
def isShardKeyCol (e : Expr) (tm : TableMetadata) : Bool :=
  match e with
  | .columnReference n => n == tm.shard_key
  | _ => false

/-- `getShardIdFromWhere`: only a *top-level* `BinaryOperation` with
operator `=` and the shard-key column on one side routes to a single
shard; every other shape (including `AND`/`OR` trees) yields `null`. -/
def getShardIdFromWhere (w : Expr) (tm : TableMetadata) (numShards : Nat)
    (params : List JSVal) : Option Nat :=
  match w with
  | .binaryOperation op l r =>
    if op = "=" then
      let value : JSVal :=
        if isShardKeyCol l tm then extractValueFromExpression r params
        else if isShardKeyCol r tm then extractValueFromExpression l params
        else .null
      if value ≠ .null then some (hashToShard value numShards) else none
    else none
  | _ => none

/-- `extractWhereClause` on the statements routing looks at. -/
def whereOf : Statement → Option (Option Expr)
  | .select w => some w
  | .update w => some w
  | .delete w => some w
  | .insert _ _ => none

/-- `determineShardTargets`: INSERT routes through
`getShardIdForInsert`; SELECT/UPDATE/DELETE route through the WHERE
clause when one exists, falling back to all shards. -/
def determineShardTargets (stmt : Statement) (tm : TableMetadata)
    (tableShards : List TableShard) (params : List JSVal) :
    Except String (List TableShard) :=
  match stmt with
  | .insert cols vals =>
    match getShardIdForInsert cols vals tm tableShards.length params with
    | .error e => .error e
    | .ok shardId =>
      match tableShards.find? (fun s => s.shard_id = shardId) with
      | none => .error "Shard not found"
      | some shard => .ok [shard]
  | stmt =>
    match (whereOf stmt).join with
    | some w =>
      match getShardIdFromWhere w tm tableShards.length params with
      | some shardId =>
        match tableShards.find? (fun s => s.shard_id = shardId) with
        | none => .error "Shard not found"
        | some shard => .ok [shard]
      | none => .ok tableShards
    | none => .ok tableShards

/-- `Conductor.sql` runs STEP 2 (`determineShardTargets`) before
STEP 3 (`executeOnShards`): a planning error reaches the client before
any shard receives a statement. -/
def shardsExecuted (stmt : Statement) (tm : TableMetadata)
    (tableShards : List TableShard) (params : List JSVal) : List TableShard :=
  match determineShardTargets stmt tm tableShards params with
  | .ok s => s
  | .error _ => []


lemma determineShardTargets_where (stmt : Statement) (tm : TableMetadata)
    (shards : List TableShard) (params : List JSVal) (w : Expr)
    (hw : whereOf stmt = some (some w)) :
    determineShardTargets stmt tm shards params =
      match getShardIdFromWhere w tm shards.length params with
      | some shardId =>
        match shards.find? (fun s => s.shard_id = shardId) with
        | none => .error "Shard not found"
        | some shard => .ok [shard]
      | none => .ok shards := by
  cases stmt with
  | select w0 => cases w0 with
    | none => simp [whereOf] at hw
    | some w1 =>
        simp only [whereOf, Option.some.injEq] at hw
        subst hw; rfl
  | update w0 => cases w0 with
    | none => simp [whereOf] at hw
    | some w1 =>
        simp only [whereOf, Option.some.injEq] at hw
        subst hw; rfl
  | delete w0 => cases w0 with
    | none => simp [whereOf] at hw
    | some w1 =>
        simp only [whereOf, Option.some.injEq] at hw
        subst hw; rfl
  | insert c v => simp [whereOf] at hw

lemma getShardIdFromWhere_eq (tm : TableMetadata) (numShards : Nat)
    (params : List JSVal) (l r : Expr) (v : JSVal)
    (hside : isShardKeyCol l tm = true ∧ extractValueFromExpression r params = v ∨
      isShardKeyCol l tm = false ∧ isShardKeyCol r tm = true ∧
        extractValueFromExpression l params = v)
    (hv : v ≠ .null) :
    getShardIdFromWhere (.binaryOperation "=" l r) tm numShards params
      = some (hashToShard v numShards) := by
  simp only [getShardIdFromWhere]
  rcases hside with ⟨hl, hr⟩ | ⟨hl, hr, hlv⟩
  · rw [if_pos trivial, hl, if_pos rfl, hr, if_pos hv]
  · have hft : ¬(false = true) := by decide
    rw [if_pos trivial, hl, hr, if_pos rfl, if_neg hft, hlv, if_pos hv]

def demoShards : List TableShard :=
  [⟨"users", 0, "node-0"⟩, ⟨"users", 1, "node-1"⟩]

def andWhereExample : Expr :=
  .binaryOperation "AND"
    (.binaryOperation ">" (.columnReference "age") (.placeholder 0))
    (.binaryOperation "=" (.columnReference "id") (.placeholder 1))

/-- C1 counterexample. -/
theorem c1_shard_key_under_and_queries_all_shards :
    determineShardTargets (.select (some andWhereExample)) ⟨"id"⟩ demoShards
      [.int 20, .int 100] = .ok demoShards ∧ demoShards.length = 2 :=
  ⟨rfl, rfl⟩

/-- C1 amended. -/
theorem c1_amended_top_level_equality_routing :
    (∀ (stmt : Statement) (tm : TableMetadata) (shards : List TableShard)
        (params : List JSVal) (l r : Expr) (v : JSVal) (sh : TableShard),
      whereOf stmt = some (some (.binaryOperation "=" l r)) →
      (isShardKeyCol l tm = true ∧ extractValueFromExpression r params = v ∨
        isShardKeyCol l tm = false ∧ isShardKeyCol r tm = true ∧
          extractValueFromExpression l params = v) →
      v ≠ .null →
      shards.find? (fun s => s.shard_id = hashToShard v shards.length) = some sh →
      determineShardTargets stmt tm shards params = .ok [sh]) ∧
    (∀ (stmt : Statement) (tm : TableMetadata) (shards : List TableShard)
        (params : List JSVal) (l r : Expr),
      whereOf stmt = some (some (.binaryOperation "AND" l r)) →
      determineShardTargets stmt tm shards params = .ok shards) := by
  constructor
  · intro stmt tm shards params l r v sh hw hside hv hfind
    rw [determineShardTargets_where stmt tm shards params _ hw,
      getShardIdFromWhere_eq tm shards.length params l r v hside hv]
    dsimp only
    rw [hfind]
  · intro stmt tm shards params l r hw
    rw [determineShardTargets_where stmt tm shards params _ hw]
    rfl

/-- C1 witness. -/
theorem c1_amended_witness :
    determineShardTargets
      (.select (some (.binaryOperation "=" (.columnReference "id") (.placeholder 0))))
      ⟨"id"⟩ demoShards [.int 100]
      = .ok [⟨"users", 1, "node-1"⟩] :=
  c1_amended_top_level_equality_routing.1
    (.select (some (.binaryOperation "=" (.columnReference "id") (.placeholder 0))))
    ⟨"id"⟩ demoShards [.int 100] (.columnReference "id") (.placeholder 0)
    (.int 100) ⟨"users", 1, "node-1"⟩
    rfl (.inl ⟨by decide, rfl⟩) (by decide) (by decide)

lemma findIdx_none_of_not_mem (cols : List String) (key : String)
    (h : key ∉ cols) : ∀ i : Nat, List.findIdx? (fun c => c = key) cols i = none := by
  induction cols with
  | nil => intro i; rfl
  | cons c t ih =>
      intro i
      simp only [List.mem_cons, not_or] at h
      rw [List.findIdx?_cons]
      have hc : decide (c = key) = false := by
        simp only [decide_eq_false_iff_not]
        exact fun hck => h.1 hck.symm
      rw [hc]
      simp only [Bool.false_eq_true, if_false]
      exact ih h.2 (i + 1)

/-- C7. -/
theorem c7_insert_without_shard_key_is_planning_error (cols : List String)
    (vals : List (List Expr)) (tm : TableMetadata) (shards : List TableShard)
    (params : List JSVal) (h : tm.shard_key ∉ cols) :
    determineShardTargets (.insert (some cols) vals) tm shards params
      = .error ("Shard key '" ++ tm.shard_key ++ "' not found in INSERT columns") ∧
    shardsExecuted (.insert (some cols) vals) tm shards params = [] := by
  have herr : determineShardTargets (.insert (some cols) vals) tm shards params
      = .error ("Shard key '" ++ tm.shard_key ++ "' not found in INSERT columns") := by
    simp only [determineShardTargets, getShardIdForInsert,
      findIdx_none_of_not_mem cols tm.shard_key h 0]
  refine ⟨herr, ?_⟩
  unfold shardsExecuted
  rw [herr]

/-- C7 witness. -/
theorem c7_witness :
    determineShardTargets (.insert (some ["name"]) [[.literal (.str "x")]])
      ⟨"id"⟩ demoShards []
      = .error "Shard key 'id' not found in INSERT columns" ∧
    shardsExecuted (.insert (some ["name"]) [[.literal (.str "x")]])
      ⟨"id"⟩ demoShards [] = [] :=
  c7_insert_without_shard_key_is_planning_error ["name"] [[.literal (.str "x")]]
    ⟨"id"⟩ demoShards [] (by decide)

/-- C10. -/
theorem c10_insert_routed_by_first_row (cols : List String) (row0 : List Expr)
    (rest : List (List Expr)) (tm : TableMetadata) (shards : List TableShard)
    (params : List JSVal) (i : Nat) (v : JSVal) (sh : TableShard)
    (hidx : List.findIdx? (fun c => c = tm.shard_key) cols 0 = some i)
    (hval : (match row0.get? i with
      | none => JSVal.null
      | some e => extractValueFromExpression e params) = v)
    (hnn : ¬(v = .null ∨ v = .undef))
    (hfind : shards.find? (fun s => s.shard_id = hashToShard v shards.length) = some sh) :
    determineShardTargets (.insert (some cols) (row0 :: rest)) tm shards params
      = .ok [sh] := by
  simp only [determineShardTargets, getShardIdForInsert, hidx]
  rw [hval, if_neg hnn]
  dsimp only
  rw [hfind]

/-- C10 witness: rows 100 and 101 hash to different shards, yet the
multi-row INSERT is routed to the shard of the first row only. -/
theorem c10_witness :
    determineShardTargets
      (.insert (some ["id"]) [[.literal (.int 100)], [.literal (.int 101)]])
      ⟨"id"⟩ demoShards []
      = .ok [⟨"users", 1, "node-1"⟩] ∧
    hashToShard (.int 101) demoShards.length = 0 ∧
    hashToShard (.int 100) demoShards.length = 1 :=
  ⟨c10_insert_routed_by_first_row ["id"] [.literal (.int 100)]
      [[.literal (.int 101)]] ⟨"id"⟩ demoShards [] 0 (.int 100)
      ⟨"users", 1, "node-1"⟩ (by decide) rfl (by decide) (by decide),
    by decide, by decide⟩
end Vitess

/-! ## The big-daddy engine AST and result merger
(`packages/big-daddy/src/engine/conductor/utils/helpers.ts`) -/

namespace Engine

/-- The `@databases/sqlite-ast` expression nodes the helpers inspect
(`Identifier`, `Literal`, `Placeholder`, `BinaryExpression`,
`FunctionCall` — whose `args` property may be absent — and
`AllColumns`); other node shapes fall into `other`.  Literals carry a
`JSVal`. -/
inductive BExpr where
  | identifier (name : String)
  | literal (value : JSVal)
  | placeholder (parameterIndex : Nat)
  | binaryExpression (operator : String) (left right : BExpr)
  | functionCall (name : String) (args : Option (List BExpr))
  | allColumns
  | other

/-- A select-clause alias is either a plain string or an `Identifier`
object (`getColumnName` handles both; the field is spelled `alias_`
because `alias` is a Lean keyword). -/
inductive AliasVal where
  | str (s : String)
  | ident (name : String)

/-- One entry of `statement.select`. -/
structure SelectClause where
  expression : Option BExpr
  alias_ : Option AliasVal

/-- The slice of a `SelectStatement` the merger reads (`select` and
`groupBy`; an absent `groupBy` is the empty list). -/
structure SelectStatement where
  select : List SelectClause
  groupBy : List BExpr

/-- The cells of rows returned by storage shards: SQL NULL, numbers
(modeled as rationals), strings, booleans, and JS `undefined` (which a
merged row can store when a source column is absent). -/
inductive SVal where
  | null
  | undef
  | num (q : Rat)
  | str (s : String)
  | bool (b : Bool)
  deriving DecidableEq, Repr

/-- A row is a JS object: an association list of fields in insertion
order (keys unique for rows produced by SQLite or by `objInsert`). -/
abbrev Row := List (String × SVal)

/-- `row[c]`: `none` models JS `undefined` (absent key). -/
def rowLookup (r : Row) (k : String) : Option SVal :=
  (r.find? (fun p => p.1 = k)).map (fun p => p.2)

/-- `Object.keys(row)`. -/
def rowKeys (r : Row) : List String :=
  r.map (fun p => p.1)

/-- JS property assignment `obj[k] = v`: overwrite in place when the
key exists, append otherwise. -/
def objInsert (r : Row) (k : String) (v : SVal) : Row :=
  match r with
  | [] => [(k, v)]
  | (k', v') :: t => if k' = k then (k, v) :: t else (k', v') :: objInsert t k v

/-- The result of one shard call. -/
structure QueryResult where
  rows : List Row
  rowsAffected : Option Nat
  deriving DecidableEq, Repr

/-- JS `Number(v)` on a cell, `none` modeling NaN.  (`Number` on
strings parses numeric text; the merger only applies it to
numeric aggregate cells, so string cells conservatively map to NaN.) -/
def jsToNumber : Option SVal → Option Rat
  | none => none
  | some .null => some 0
  | some .undef => none
  | some (.num q) => some q
  | some (.str _) => none
  | some (.bool b) => some (if b then 1 else 0)

/-- `Number(row[c]) || 0`. -/
def numOr0 (v : Option SVal) : Rat :=
  (jsToNumber v).getD 0

/-- `rows.map(row => row[c]).filter(v => v != null && typeof v === "number")`:
the numeric cells of a column (loose `!=` also drops `undefined`). -/
def numericValues (rows : List Row) (c : String) : List Rat :=
  rows.filterMap (fun row =>
    match rowLookup row c with
    | some (.num q) => some q
    | _ => none)

/-- JS `toUpperCase` on one ASCII character. -/
def jsUpperChar (c : Char) : Char :=
  if 'a' ≤ c ∧ c ≤ 'z' then Char.ofNat (c.toNat - 32) else c

/-- JS `String.prototype.toUpperCase` (ASCII; SQL function names are
ASCII), modeled character by character so concrete witnesses evaluate. -/
def jsToUpperCase (s : String) : String :=
  String.mk (s.data.map jsUpperChar)

/-- JS `toLowerCase` on one ASCII character. -/
def jsLowerChar (c : Char) : Char :=
  if 'A' ≤ c ∧ c ≤ 'Z' then Char.ofNat (c.toNat + 32) else c

/-- JS `String.prototype.toLowerCase` (ASCII). -/
def jsToLowerCase (s : String) : String :=
  String.mk (s.data.map jsLowerChar)

/-- Character-list prefix test for `String.prototype.startsWith`. -/
def charsLead : List Char → List Char → Bool
  | _, [] => true
  | [], _ :: _ => false
  | a :: as, b :: bs => a == b && charsLead as bs

/-- JS `s.startsWith(p)`. -/
def jsStartsWith (s p : String) : Bool :=
  charsLead s.data p.data

/-- `isAggregationFunction`. -/
def isAggregationFunction (expr : Option BExpr) : Bool :=
  match expr with
  | some (.functionCall n _) =>
      ["COUNT", "SUM", "AVG", "MIN", "MAX"].contains (jsToUpperCase n)
  | _ => false

/-- `hasAggregations`. -/
def hasAggregations (s : SelectStatement) : Bool :=
  s.select.any (fun c => isAggregationFunction c.expression)

/-- `extractGroupByColumns`: names of the `Identifier` entries of
`groupBy`. -/
def extractGroupByColumns (s : SelectStatement) : List String :=
  s.groupBy.filterMap (fun e =>
    match e with
    | .identifier n => some n
    | _ => none)

/-- `reconstructArguments` on one argument node. -/
def reconstructArgument : BExpr → String
  | .allColumns => "*"
  | .identifier n => if n = "" then "col" else n
  | .literal v => jsString v
  | .functionCall n _ => n
  | _ => "arg"

/-- `reconstructArguments`. -/
def reconstructArguments (args : Option (List BExpr)) : String :=
  match args with
  | none => ""
  | some l =>
    match l with
    | [] => ""
    | _ => String.intercalate ", " (l.map reconstructArgument)

/-- The `name` property of an expression node (`Identifier` and
`FunctionCall` carry one). -/
def exprNameProp : BExpr → Option String
  | .identifier n => some n
  | .functionCall n _ => some n
  | _ => none

/-- `getColumnName`. -/
def getColumnName (c : SelectClause) : String :=
  match c.alias_ with
  | some (.str s) => s
  | some (.ident n) => n
  | none =>
    match c.expression with
    | some (.functionCall n args) =>
        (if n = "" then "FUNC" else n) ++ "(" ++ reconstructArguments args ++ ")"
    | some e =>
        match exprNameProp e with
        | some n => if n = "" then "result" else n
        | none => "result"
    | none => "result"

/-- `findActualColumnName`. -/
def findActualColumnName (expectedName : String)
    (actualColumnNames : List String) (expr : Option BExpr) : String :=
  if actualColumnNames.contains expectedName then expectedName
  else if actualColumnNames.contains (jsToLowerCase expectedName) then
    jsToLowerCase expectedName
  else
    match expr with
    | some (.functionCall n _) =>
        match actualColumnNames.find? (fun c =>
          jsStartsWith (jsToLowerCase c) (jsToLowerCase n)) with
        | some c => c
        | none => expectedName
    | _ => expectedName

/-- `mergeAggregationColumn`: combine one column across a group of
rows according to the aggregate function name. -/
def mergeAggregationColumn (rows : List Row) (actualColName : String)
    (funcName : String) : SVal :=
  if funcName = "COUNT" then
    .num (rows.foldl (fun sum row => sum + numOr0 (rowLookup row actualColName)) 0)
  else if funcName = "SUM" then
    .num (rows.foldl (fun sum row => sum + numOr0 (rowLookup row actualColName)) 0)
  else if funcName = "MIN" then
    match (numericValues rows actualColName).min? with
    | some m => .num m
    | none => .null
  else if funcName = "MAX" then
    match (numericValues rows actualColName).max? with
    | some m => .num m
    | none => .null
  else if funcName = "AVG" then
    let values := numericValues rows actualColName
    if values = [] then .null
    else .num ((values.foldl (fun a b => a + b) 0) / values.length)
  else
    match rows.head? with
    | none => .undef
    | some r => ((rowLookup r actualColName).getD .undef)

/-- The loop body of `mergeRowGroup` for one select clause: the value
written at `getColumnName c` (the aggregate merge for a
`FunctionCall`, the first row's cell otherwise). -/
def mergeClauseValue (rows : List Row) (actualColumnNames : List String)
    (c : SelectClause) : SVal :=
  let colName := getColumnName c
  let actual := findActualColumnName colName actualColumnNames c.expression
  match c.expression with
  | some (.functionCall fname _) =>
      mergeAggregationColumn rows actual (jsToUpperCase fname)
  | _ =>
    match rows.head? with
    | none => .undef
    | some r => ((rowLookup r actual).getD .undef)

/-- `mergeRowGroup`: build the merged row clause by clause (the
`groupByColumns` argument is passed by the caller but unused, as in
the source). -/
def mergeRowGroup (rows : List Row) (s : SelectStatement)
    (_groupByColumns : List String) (actualColumnNames : List String) : Row :=
  s.select.foldl (fun merged c =>
    objInsert merged (getColumnName c) (mergeClauseValue rows actualColumnNames c)) []

/-- `areGroupByColumnsInResults`. -/
def areGroupByColumnsInResults (groupByColumns : List String)
    (actualColumnNames : List String) : Bool :=
  groupByColumns.all (fun col =>
    actualColumnNames.contains (findActualColumnName col actualColumnNames none))

/-- Grouping key of a row for the GROUP BY merge path.  The source
joins `JSON.stringify` of each GROUP BY cell with `|`; the embedding
keys groups by the cell values themselves, which distinguishes groups
at least as finely. -/
def groupKey (groupByColumns : List String) (actualColumnNames : List String)
    (row : Row) : List (Option SVal) :=
  groupByColumns.map (fun col =>
    rowLookup row (findActualColumnName col actualColumnNames none))

/-- Append `row` to the bucket of `key`, creating the bucket at the
end on first sight (JS `Map` insertion order). -/
def addToGroup (groups : List (List (Option SVal) × List Row))
    (key : List (Option SVal)) (row : Row) :
    List (List (Option SVal) × List Row) :=
  match groups with
  | [] => [(key, [row])]
  | (k, rs) :: t =>
    if k = key then (k, rs ++ [row]) :: t else (k, rs) :: addToGroup t key row

/-- `mergeAggregations`. -/
def mergeAggregations (results : List QueryResult) (s : SelectStatement) :
    List Row :=
  match results with
  | [] => []
  | [r] => r.rows
  | _ =>
    let allRows := results.flatMap QueryResult.rows
    if allRows = [] then []
    else
      let actualColumnNames :=
        match allRows.head? with
        | some r => rowKeys r
        | none => []
      let groupByColumns := extractGroupByColumns s
      if groupByColumns = [] then
        [mergeRowGroup allRows s groupByColumns actualColumnNames]
      else if ¬ areGroupByColumnsInResults groupByColumns actualColumnNames then
        allRows
      else
        let groups := allRows.foldl (fun gs row =>
          addToGroup gs (groupKey groupByColumns actualColumnNames row) row) []
        groups.map (fun g => mergeRowGroup g.2 s groupByColumns actualColumnNames)

/-- `isVirtualShardExplicitlySelected`: a select clause whose
expression is the identifier `_virtualShard`. -/
def isVirtualShardExplicitlySelected (s : SelectStatement) : Bool :=
  s.select.any (fun c =>
    match c.expression with
    | some (.identifier n) => n == "_virtualShard"
    | _ => false)

/-- The object-rest strip `const {_virtualShard: _, ...cleaned} = row`. -/
def stripVirtualShard (row : Row) : Row :=
  row.filter (fun p => p.1 ≠ "_virtualShard")

/-- The statement argument of `mergeResultsSimple`: a
`SelectStatement` or any non-select statement (the crud handlers also
pass the boolean `false`, which takes the same non-select branch). -/
inductive MergeStatement where
  | select (s : SelectStatement)
  | nonSelect

/-- `mergeResultsSimple` from `helpers.ts`. -/
def mergeResultsSimple (results : List QueryResult) (stmt : MergeStatement) :
    QueryResult :=
  match stmt with
  | .select s =>
    if hasAggregations s then
      let mergedRows := mergeAggregations results s
      ⟨mergedRows, some mergedRows.length⟩
    else
      let mergedRows := results.flatMap QueryResult.rows
      let keepVirtualShard := isVirtualShardExplicitlySelected s
      let cleanedRows := mergedRows.map (fun row =>
        if keepVirtualShard then row else stripVirtualShard row)
      ⟨cleanedRows, some cleanedRows.length⟩
  | .nonSelect =>
      ⟨[], some (results.foldl (fun sum r => sum + r.rowsAffected.getD 0) 0)⟩


lemma rowLookup_stripVirtualShard (row : Row) :
    rowLookup (stripVirtualShard row) "_virtualShard" = none := by
  induction row with
  | nil => rfl
  | cons p t ih =>
      unfold stripVirtualShard at ih ⊢
      by_cases hp : p.1 = "_virtualShard"
      · rw [List.filter_cons]
        simp only [hp, decide_not]
        simpa using ih
      · rw [List.filter_cons]
        have : (decide ¬p.1 = "_virtualShard") = true := by
          simpa using hp
        rw [this]
        simp only [if_true]
        unfold rowLookup
        rw [List.find?_cons]
        have : (decide (p.1 = "_virtualShard")) = false := by simpa using hp
        rw [this]
        exact ih

/-- C6. For a SELECT without aggregation functions, `mergeResultsSimple`
concatenates the per-shard row lists in shard order and strips the
`_virtualShard` key from every row unless the identifier
`_virtualShard` is explicitly listed in the SELECT projection, in which
case rows pass through untouched. -/
theorem c6_merge_concat_strips_virtualShard (results : List QueryResult)
    (s : SelectStatement) (hagg : hasAggregations s = false) :
    (isVirtualShardExplicitlySelected s = true →
      (mergeResultsSimple results (.select s)).rows
        = results.flatMap QueryResult.rows) ∧
    (isVirtualShardExplicitlySelected s = false →
      (mergeResultsSimple results (.select s)).rows
        = (results.flatMap QueryResult.rows).map stripVirtualShard ∧
      ∀ row ∈ (mergeResultsSimple results (.select s)).rows,
        rowLookup row "_virtualShard" = none) := by
  constructor
  · intro hkeep
    unfold mergeResultsSimple
    dsimp only
    rw [hagg]
    simp only [Bool.false_eq_true, if_false, hkeep, if_true]
    exact List.map_id _
  · intro hkeep
    unfold mergeResultsSimple
    dsimp only
    rw [hagg]
    simp only [Bool.false_eq_true, if_false, hkeep]
    refine ⟨trivial, ?_⟩
    intro row hrow
    rw [List.mem_map] at hrow
    obtain ⟨r0, _, hr0⟩ := hrow
    rw [show row = stripVirtualShard r0 from hr0.symm]
    exact rowLookup_stripVirtualShard r0

/-- C6 witness. -/
theorem c6_witness :
    (mergeResultsSimple
      [⟨[[("id", .num 1), ("_virtualShard", .num 0)]], some 1⟩,
       ⟨[[("id", .num 2), ("_virtualShard", .num 1)]], some 1⟩]
      (.select ⟨[⟨some (.identifier "id"), none⟩], []⟩)).rows
      = [[("id", .num 1)], [("id", .num 2)]] := by
  have h := (c6_merge_concat_strips_virtualShard
    [⟨[[("id", .num 1), ("_virtualShard", .num 0)]], some 1⟩,
     ⟨[[("id", .num 2), ("_virtualShard", .num 1)]], some 1⟩]
    ⟨[⟨some (.identifier "id"), none⟩], []⟩ rfl).2 rfl
  rw [h.1]
  rfl

/-! ### `injectVirtualShard` (resharding rewrite, `helpers.ts`) -/

/-- The statement shapes `injectVirtualShard` accepts. -/
inductive WStatement where
  | insert (columns : Option (List String)) (values : Option (List (List BExpr)))
  | select (whereClause : Option BExpr)
  | update (whereClause : Option BExpr)
  | delete (whereClause : Option BExpr)

/-- The `_virtualShard = ?` filter with a fresh placeholder at
`params.length`. -/
def virtualShardFilter (params : List JSVal) : BExpr :=
  .binaryExpression "=" (.identifier "_virtualShard") (.placeholder params.length)

/-- `injectWhereFilter`: conjoin the filter to an existing WHERE, or
install it as the WHERE. -/
def injectWhereFilter (w : Option BExpr) (params : List JSVal) : Option BExpr :=
  match w with
  | some e => some (.binaryExpression "AND" e (virtualShardFilter params))
  | none => some (virtualShardFilter params)

/-- The `values.map` of `insertColumn`: append one `_virtualShard`
placeholder per row, indices counting up from the start value
(`paramIndex` starts at `params.length` and increments per row). -/
def appendShardPlaceholders : List (List BExpr) → Nat → List (List BExpr)
  | [], _ => []
  | row :: rest, i => (row ++ [.placeholder i]) :: appendShardPlaceholders rest (i + 1)

/-- `insertColumn`: add the `_virtualShard` identifier to the column
list and a fresh placeholder to every row of values. -/
def insertColumn (columns : Option (List String))
    (values : Option (List (List BExpr))) (params : List JSVal) :
    Option (List String) × Option (List (List BExpr)) :=
  (match columns with
   | some cs => some (cs ++ ["_virtualShard"])
   | none => some ["_virtualShard"],
   match values with
   | some vss => some (appendShardPlaceholders vss params.length)
   | none => some [[.placeholder params.length]])

/-- `expr.type === "Placeholder"`. -/
def isPlaceholder : BExpr → Bool
  | .placeholder _ => true
  | _ => false

/-- The inner loop of the INSERT branch of `injectVirtualShard`: push
`params[paramIndex++]` for every placeholder of the row. -/
def interleaveRowParams (row : List BExpr) (params : List JSVal)
    (acc : List JSVal) (paramIndex : Nat) : List JSVal × Nat :=
  match row with
  | [] => (acc, paramIndex)
  | e :: rest =>
    if isPlaceholder e then
      interleaveRowParams rest params (acc ++ [params.getD paramIndex .undef]) (paramIndex + 1)
    else
      interleaveRowParams rest params acc paramIndex

/-- The outer loop of the INSERT branch: after each row's parameters,
push the shard id. -/
def interleaveParams (rows : List (List BExpr)) (params : List JSVal)
    (shardId : Nat) (acc : List JSVal) (paramIndex : Nat) : List JSVal :=
  match rows with
  | [] => acc
  | row :: rest =>
    let state := interleaveRowParams row params acc paramIndex
    interleaveParams rest params shardId (state.1 ++ [.int shardId]) state.2

/-- `injectVirtualShard`: INSERTs get the `_virtualShard` column and
interleaved parameters; SELECT/UPDATE/DELETE get the WHERE filter and
the shard id appended to the parameters. -/
def injectVirtualShard (stmt : WStatement) (params : List JSVal)
    (shardId : Nat) : WStatement × List JSVal :=
  match stmt with
  | .insert cols values =>
    let rows := values.getD []
    let interleaved := interleaveParams rows params shardId [] 0
    let modified := insertColumn cols values params
    (.insert modified.1 modified.2, interleaved)
  | .select w => (.select (injectWhereFilter w params), params ++ [.int shardId])
  | .update w => (.update (injectWhereFilter w params), params ++ [.int shardId])
  | .delete w => (.delete (injectWhereFilter w params), params ++ [.int shardId])

/-- C8. The shape of the resharding rewrite, row by row and clause by
clause: for SELECT/UPDATE/DELETE the original WHERE expression is kept
verbatim as the left conjunct (so every `Placeholder` node it contains
keeps its `parameterIndex`), and the injected filter's placeholder is
the fresh index `params.length`; for INSERT every original VALUES row
is kept verbatim as a prefix and the placeholder appended to row `j`
carries the fresh index `params.length + j ≥ params.length`. -/
theorem c8_injectVirtualShard_preserves_placeholders (params : List JSVal)
    (shardId : Nat) :
    (∀ w : BExpr,
      (injectVirtualShard (.select (some w)) params shardId).1
        = .select (some (.binaryExpression "AND" w (virtualShardFilter params))) ∧
      (injectVirtualShard (.update (some w)) params shardId).1
        = .update (some (.binaryExpression "AND" w (virtualShardFilter params))) ∧
      (injectVirtualShard (.delete (some w)) params shardId).1
        = .delete (some (.binaryExpression "AND" w (virtualShardFilter params)))) ∧
    ((injectVirtualShard (.select none) params shardId).1
        = .select (some (virtualShardFilter params)) ∧
      (injectVirtualShard (.update none) params shardId).1
        = .update (some (virtualShardFilter params)) ∧
      (injectVirtualShard (.delete none) params shardId).1
        = .delete (some (virtualShardFilter params))) ∧
    (∀ (cols : Option (List String)) (vss : List (List BExpr)),
      (injectVirtualShard (.insert cols (some vss)) params shardId).1
        = .insert
            (match cols with
             | some cs => some (cs ++ ["_virtualShard"])
             | none => some ["_virtualShard"])
            (some (appendShardPlaceholders vss params.length))) ∧
    (∀ (vss : List (List BExpr)) (j : Nat) (row : List BExpr),
      vss[j]? = some row →
      (appendShardPlaceholders vss params.length)[j]?
          = some (row ++ [.placeholder (params.length + j)]) ∧
      params.length ≤ params.length + j) ∧
    virtualShardFilter params
      = .binaryExpression "=" (.identifier "_virtualShard")
          (.placeholder params.length) := by
  refine ⟨fun w => ⟨rfl, rfl, rfl⟩, ⟨rfl, rfl, rfl⟩,
    fun cols vss => ?_, fun vss => ?_, rfl⟩
  · cases cols <;> rfl
  · have main : ∀ (l : List (List BExpr)) (k j : Nat) (row : List BExpr),
        l[j]? = some row →
        (appendShardPlaceholders l k)[j]? = some (row ++ [.placeholder (k + j)]) := by
      intro l
      induction l with
      | nil => intro k j row h; cases j <;> cases h
      | cons r rest ih =>
          intro k j row h
          cases j with
          | zero =>
              simp only [List.getElem?_cons_zero, Option.some.injEq] at h
              subst h
              unfold appendShardPlaceholders
              rw [List.getElem?_cons_zero, Nat.add_zero]
          | succ n =>
              simp only [List.getElem?_cons_succ] at h
              unfold appendShardPlaceholders
              rw [List.getElem?_cons_succ]
              have := ih (k + 1) n row h
              rw [this]
              have harith : k + 1 + n = k + (n + 1) := by omega
              rw [harith]
    intro j row h
    exact ⟨main vss params.length j row h, Nat.le_add_right _ _⟩

lemma rowLookup_objInsert_self (r : Row) (k : String) (v : SVal) :
    rowLookup (objInsert r k v) k = some v := by
  induction r with
  | nil =>
      unfold objInsert rowLookup
      rw [List.find?_cons]
      simp
  | cons p t ih =>
      unfold objInsert
      by_cases hp : p.1 = k
      · rw [if_pos hp]
        unfold rowLookup
        rw [List.find?_cons]
        simp
      · rw [if_neg hp]
        unfold rowLookup
        rw [List.find?_cons]
        have : (decide (p.1 = k)) = false := by simpa using hp
        rw [this]
        exact ih

lemma rowLookup_objInsert_other (r : Row) (k k' : String) (v : SVal)
    (h : k ≠ k') : rowLookup (objInsert r k v) k' = rowLookup r k' := by
  induction r with
  | nil =>
      unfold objInsert rowLookup
      rw [List.find?_cons]
      have : (decide ((k, v).1 = k')) = false := by simpa using h
      rw [this]
  | cons p t ih =>
      unfold objInsert
      by_cases hp : p.1 = k
      · rw [if_pos hp]
        unfold rowLookup
        rw [List.find?_cons, List.find?_cons]
        have h1 : (decide ((k, v).1 = k')) = false := by simpa using h
        have h2 : (decide (p.1 = k')) = false := by
          simp only [decide_eq_false_iff_not]
          rw [hp]
          exact h
        rw [h1, h2]
      · rw [if_neg hp]
        unfold rowLookup
        rw [List.find?_cons, List.find?_cons]
        cases hd : decide (p.1 = k') with
        | true => rfl
        | false => exact ih

lemma rowLookup_mergeFold_skip (rows : List Row) (names : List String)
    (clauses : List SelectClause) (key : String) :
    ∀ r0 : Row, (∀ c ∈ clauses, getColumnName c ≠ key) →
    rowLookup (clauses.foldl (fun merged c =>
      objInsert merged (getColumnName c) (mergeClauseValue rows names c)) r0) key
      = rowLookup r0 key := by
  induction clauses with
  | nil => intro r0 _; rfl
  | cons c t ih =>
      intro r0 h
      rw [List.foldl_cons]
      rw [ih _ (fun c' hc' => h c' (List.mem_cons_of_mem c hc'))]
      exact rowLookup_objInsert_other r0 (getColumnName c) key _
        (h c (List.mem_cons_self c t))

lemma foldl_add_numOr0 (rows : List Row) (c : String) :
    ∀ a : Rat, rows.foldl (fun sum row => sum + numOr0 (rowLookup row c)) a
      = a + (rows.map (fun r => numOr0 (rowLookup r c))).sum := by
  induction rows with
  | nil => intro a; rw [List.foldl_nil, List.map_nil, List.sum_nil, add_zero]
  | cons r t ih =>
      intro a
      rw [List.foldl_cons, List.map_cons, List.sum_cons, ih, add_assoc]

lemma foldl_add_id (l : List Rat) :
    ∀ a : Rat, l.foldl (fun x y => x + y) a = a + l.sum := by
  induction l with
  | nil => intro a; rw [List.foldl_nil, List.sum_nil, add_zero]
  | cons r t ih =>
      intro a
      rw [List.foldl_cons, List.sum_cons, ih, add_assoc]

lemma foldl_min_spec (as : List Rat) :
    ∀ a : Rat, (as.foldl min a = a ∨ as.foldl min a ∈ as) ∧
      as.foldl min a ≤ a ∧ ∀ x ∈ as, as.foldl min a ≤ x := by
  induction as with
  | nil => intro a; exact ⟨.inl rfl, le_refl a, by intro x hx; cases hx⟩
  | cons b bs ih =>
      intro a
      rw [List.foldl_cons]
      obtain ⟨hmem, hlea, hall⟩ := ih (min a b)
      refine ⟨?_, ?_, ?_⟩
      · rcases hmem with hm | hm
        · rcases min_choice a b with hab | hab
          · exact .inl (hm.trans hab)
          · exact .inr (by rw [hm, hab]; exact List.mem_cons_self b bs)
        · exact .inr (List.mem_cons_of_mem b hm)
      · exact hlea.trans (min_le_left a b)
      · intro x hx
        rcases List.mem_cons.1 hx with hx | hx
        · rw [hx] at *
          exact hlea.trans (min_le_right a b)
        · exact hall x hx

lemma min?_spec (l : List Rat) (m : Rat) (h : l.min? = some m) :
    m ∈ l ∧ ∀ x ∈ l, m ≤ x := by
  cases l with
  | nil => cases h
  | cons a as =>
      rw [List.min?_cons'] at h
      have heq : as.foldl min a = m := Option.some.inj h
      obtain ⟨hmem, hlea, hall⟩ := foldl_min_spec as a
      rw [heq] at hmem hlea hall
      constructor
      · rcases hmem with hm' | hm'
        · rw [hm']; exact List.mem_cons_self a as
        · exact List.mem_cons_of_mem a hm'
      · intro x hx
        rcases List.mem_cons.1 hx with hx | hx
        · rw [hx]; exact hlea
        · exact hall x hx

lemma foldl_max_spec (as : List Rat) :
    ∀ a : Rat, (as.foldl max a = a ∨ as.foldl max a ∈ as) ∧
      a ≤ as.foldl max a ∧ ∀ x ∈ as, x ≤ as.foldl max a := by
  induction as with
  | nil => intro a; exact ⟨.inl rfl, le_refl a, by intro x hx; cases hx⟩
  | cons b bs ih =>
      intro a
      rw [List.foldl_cons]
      obtain ⟨hmem, hlea, hall⟩ := ih (max a b)
      refine ⟨?_, ?_, ?_⟩
      · rcases hmem with hm | hm
        · rcases max_choice a b with hab | hab
          · exact .inl (hm.trans hab)
          · exact .inr (by rw [hm, hab]; exact List.mem_cons_self b bs)
        · exact .inr (List.mem_cons_of_mem b hm)
      · exact (le_max_left a b).trans hlea
      · intro x hx
        rcases List.mem_cons.1 hx with hx | hx
        · rw [hx]
          exact (le_max_right a b).trans hlea
        · exact hall x hx

lemma max?_spec (l : List Rat) (m : Rat) (h : l.max? = some m) :
    m ∈ l ∧ ∀ x ∈ l, x ≤ m := by
  cases l with
  | nil => cases h
  | cons a as =>
      rw [List.max?_cons'] at h
      have heq : as.foldl max a = m := Option.some.inj h
      obtain ⟨hmem, hlea, hall⟩ := foldl_max_spec as a
      rw [heq] at hmem hlea hall
      constructor
      · rcases hmem with hm' | hm'
        · rw [hm']; exact List.mem_cons_self a as
        · exact List.mem_cons_of_mem a hm'
      · intro x hx
        rcases List.mem_cons.1 hx with hx | hx
        · rw [hx]; exact hlea
        · exact hall x hx

/-- C5. Merging an aggregated SELECT without GROUP BY: with at least
two shard results and at least one row, `mergeAggregations` produces
exactly one merged row; within it, COUNT and SUM columns are the sum
of the per-shard cells, MIN/MAX are the minimum/maximum of the numeric
per-shard cells, AVG is the arithmetic mean of the numeric per-shard
cells (the per-shard averages), and each `FunctionCall` select clause
writes `mergeAggregationColumn` of its resolved column at its column
name. -/
theorem c5_aggregation_merge_rules :
    (∀ (r1 r2 : QueryResult) (rest : List QueryResult) (s : SelectStatement),
      hasAggregations s = true →
      extractGroupByColumns s = [] →
      (r1 :: r2 :: rest).flatMap QueryResult.rows ≠ [] →
      mergeAggregations (r1 :: r2 :: rest) s
        = [mergeRowGroup ((r1 :: r2 :: rest).flatMap QueryResult.rows) s []
            (rowKeys (((r1 :: r2 :: rest).flatMap QueryResult.rows).headD []))]) ∧
    (∀ (rows : List Row) (c : String),
      mergeAggregationColumn rows c "COUNT"
        = .num ((rows.map (fun r => numOr0 (rowLookup r c))).sum) ∧
      mergeAggregationColumn rows c "SUM"
        = .num ((rows.map (fun r => numOr0 (rowLookup r c))).sum)) ∧
    (∀ (rows : List Row) (c : String) (m : Rat),
      (mergeAggregationColumn rows c "MIN" = .num m →
        m ∈ numericValues rows c ∧ ∀ x ∈ numericValues rows c, m ≤ x) ∧
      (mergeAggregationColumn rows c "MAX" = .num m →
        m ∈ numericValues rows c ∧ ∀ x ∈ numericValues rows c, x ≤ m)) ∧
    (∀ (rows : List Row) (c : String),
      numericValues rows c ≠ [] →
      ((∃ m, mergeAggregationColumn rows c "MIN" = .num m) ∧
       (∃ m, mergeAggregationColumn rows c "MAX" = .num m) ∧
       mergeAggregationColumn rows c "AVG"
         = .num ((numericValues rows c).sum / ((numericValues rows c).length : Rat)))) ∧
    (∀ (rows : List Row) (s : SelectStatement) (names : List String)
        (pre post : List SelectClause) (c : SelectClause)
        (fname : String) (args : Option (List BExpr)),
      s.select = pre ++ c :: post →
      c.expression = some (.functionCall fname args) →
      (∀ c' ∈ post, getColumnName c' ≠ getColumnName c) →
      rowLookup (mergeRowGroup rows s [] names) (getColumnName c)
        = some (mergeAggregationColumn rows
            (findActualColumnName (getColumnName c) names c.expression)
            (jsToUpperCase fname))) := by
  refine ⟨?_, ?_, ?_, ?_, ?_⟩
  · intro r1 r2 rest s hagg hgb hne
    unfold mergeAggregations
    rw [if_neg hne, hgb]
    rw [if_pos rfl]
    have hhead : (match ((r1 :: r2 :: rest).flatMap QueryResult.rows).head? with
        | some r => rowKeys r
        | none => ([] : List String))
        = rowKeys (((r1 :: r2 :: rest).flatMap QueryResult.rows).headD []) := by
      cases hh : ((r1 :: r2 :: rest).flatMap QueryResult.rows).head? with
      | none => rw [List.headD_eq_head?_getD, hh]; rfl
      | some r => rw [List.headD_eq_head?_getD, hh]; rfl
    rw [hhead]
  · intro rows c
    constructor
    · unfold mergeAggregationColumn
      rw [if_pos rfl, foldl_add_numOr0 rows c 0, zero_add]
    · unfold mergeAggregationColumn
      rw [if_neg (by decide), if_pos rfl, foldl_add_numOr0 rows c 0, zero_add]
  · intro rows c m
    constructor
    · intro h
      unfold mergeAggregationColumn at h
      rw [if_neg (by decide), if_neg (by decide), if_pos rfl] at h
      cases hmin : (numericValues rows c).min? with
      | none => rw [hmin] at h; cases h
      | some m0 =>
          rw [hmin] at h
          have hm0 : m0 = m := SVal.num.inj h
          rw [hm0] at hmin
          exact min?_spec _ m hmin
    · intro h
      unfold mergeAggregationColumn at h
      rw [if_neg (by decide), if_neg (by decide), if_neg (by decide), if_pos rfl] at h
      cases hmax : (numericValues rows c).max? with
      | none => rw [hmax] at h; cases h
      | some m0 =>
          rw [hmax] at h
          have hm0 : m0 = m := SVal.num.inj h
          rw [hm0] at hmax
          exact max?_spec _ m hmax
  · intro rows c hne
    refine ⟨?_, ?_, ?_⟩
    · cases hl : numericValues rows c with
      | nil => exact absurd hl hne
      | cons a as =>
          refine ⟨as.foldl min a, ?_⟩
          unfold mergeAggregationColumn
          rw [if_neg (by decide), if_neg (by decide), if_pos rfl, hl, List.min?_cons']
    · cases hl : numericValues rows c with
      | nil => exact absurd hl hne
      | cons a as =>
          refine ⟨as.foldl max a, ?_⟩
          unfold mergeAggregationColumn
          rw [if_neg (by decide), if_neg (by decide), if_neg (by decide), if_pos rfl,
            hl, List.max?_cons']
    · unfold mergeAggregationColumn
      rw [if_neg (by decide), if_neg (by decide), if_neg (by decide), if_neg (by decide),
        if_pos rfl]
      dsimp only
      rw [if_neg hne, foldl_add_id _ 0, zero_add]
  · intro rows s names pre post c fname args hsel hexp hpost
    unfold mergeRowGroup
    rw [hsel, List.foldl_append, List.foldl_cons]
    rw [rowLookup_mergeFold_skip rows names post (getColumnName c) _ hpost]
    rw [rowLookup_objInsert_self]
    unfold mergeClauseValue
    rw [hexp]

/-- C5 witness: a two-shard COUNT query satisfies the hypotheses, and
the theorem merges it to the single `mergeRowGroup` row. -/
theorem c5_witness :
    hasAggregations ⟨[⟨some (.functionCall "COUNT" none), none⟩], []⟩ = true ∧
    mergeAggregations
      [⟨[[("COUNT(*)", .num 2)]], some 1⟩, ⟨[[("COUNT(*)", .num 3)]], some 1⟩]
      ⟨[⟨some (.functionCall "COUNT" none), none⟩], []⟩
      = [mergeRowGroup
          [[("COUNT(*)", .num 2)], [("COUNT(*)", .num 3)]]
          ⟨[⟨some (.functionCall "COUNT" none), none⟩], []⟩ []
          ["COUNT(*)"]] :=
  ⟨by decide,
    c5_aggregation_merge_rules.1
      ⟨[[("COUNT(*)", .num 2)]], some 1⟩ ⟨[[("COUNT(*)", .num 3)]], some 1⟩ []
      ⟨[⟨some (.functionCall "COUNT" none), none⟩], []⟩ (by decide) rfl (by decide)⟩


/-! ### Index maintenance key builders and UPDATE dedupe
(`crud/update.ts`, `utils/utils.ts`, and the queue consumer's
`processBuildIndexJob`) -/

/-- A runtime row returned by a shard, as the index-maintenance code
sees it: a JS object from column names to SQL values. -/
abbrev JRow := List (String × JSVal)

/-- `row[c]` on a runtime row. -/
def jrowLookup (r : JRow) (k : String) : Option JSVal :=
  (r.find? (fun p => p.1 = k)).map (fun p => p.2)

/-- JS property assignment on a runtime row. -/
def jrowInsert (r : JRow) (k : String) (v : JSVal) : JRow :=
  match r with
  | [] => [(k, v)]
  | (k', v') :: t => if k' = k then (k, v) :: t else (k', v') :: jrowInsert t k v

/-- `JSON.stringify` of one scalar (string escaping covers quote and
backslash, the characters these key values can contain). -/
def jsonOfJSVal : JSVal → String
  | .null => "null"
  | .undef => "null"
  | .str s => "\"" ++ String.mk (s.data.flatMap (fun c =>
      if c = '"' ∨ c = '\\' then ['\\', c] else [c])) ++ "\""
  | .int n => toString n
  | .bool b => if b then "true" else "false"

/-- `JSON.stringify` of an array of scalars. -/
def jsonStringify (l : List JSVal) : String :=
  "[" ++ String.intercalate "," (l.map jsonOfJSVal) ++ "]"

/-- `buildIndexKeyValue` (`crud/update.ts` and the DELETE handler):
`String(value)` for a single-column index, `JSON.stringify` of the
value tuple for a composite index; NULL (or missing) values suppress
the key. -/
def buildIndexKeyValue (row : JRow) (columns : List String) : Option String :=
  match columns with
  | [c] =>
    let value := jrowLookup row c
    if isNullish value then none
    else some (jsString (value.getD .undef))
  | _ =>
    let values := columns.map (fun col => jrowLookup row col)
    if values.any (fun v => decide (isNullish v)) then none
    else some (jsonStringify (values.map (fun v => v.getD .undef)))

/-- `params[parameterIndex] ?? null`: an out-of-range (or `undefined`)
parameter reads as `null`. -/
def paramOrNull (params : List JSVal) (i : Nat) : JSVal :=
  match params.getD i .undef with
  | .undef => .null
  | v => v

/-- The `rowData` object of `extractKeyValueFromRow`
(`utils/utils.ts`): walk the column list and the row's expressions in
parallel (columns beyond the row length assign nothing), resolving
`Literal` and `Placeholder` expressions; any other node shape assigns
nothing.  (The source's non-object fallback cannot arise from a parsed
AST.) -/
def buildRowData : List String → List BExpr → List JSVal → JRow → JRow
  | [], _, _, acc => acc
  | _ :: _, [], _, acc => acc
  | c :: cs, e :: es, params, acc =>
    let acc' :=
      match e with
      | BExpr.literal v => jrowInsert acc c v
      | BExpr.placeholder i => jrowInsert acc c (paramOrNull params i)
      | _ => acc
    buildRowData cs es params acc'

/-- `extractKeyValueFromRow` (`utils/utils.ts`): resolve the INSERT
row into `rowData`, then build the key exactly like
`buildIndexKeyValue`. -/
def extractKeyValueFromRow (columns : List String) (row : List BExpr)
    (indexColumns : List String) (params : List JSVal) : Option String :=
  let rowData := buildRowData columns row params []
  match indexColumns with
  | [c] =>
    let value := jrowLookup rowData c
    if isNullish value then none
    else some (jsString (value.getD .undef))
  | _ =>
    let values := indexColumns.map (fun col => jrowLookup rowData col)
    if values.any (fun v => decide (isNullish v)) then none
    else some (jsonStringify (values.map (fun v => v.getD .undef)))

/-- `Set.add` on a shard-id set (insertion order, deduplicated). -/
def addShardToSet (s : List Nat) (i : Nat) : List Nat :=
  if s.contains i then s else s ++ [i]

/-- Lookup in a string-keyed JS `Map`. -/
def mapLookupS (m : List (String × List Nat)) (k : String) : Option (List Nat) :=
  (m.find? (fun p => p.1 = k)).map (fun p => p.2)

/-- `map.get(key).add(shardId)` with creation on first sight
(the `valueToShards` / `globalValues` update step). -/
def upsertShard (m : List (String × List Nat)) (k : String) (i : Nat) :
    List (String × List Nat) :=
  match m with
  | [] => [(k, [i])]
  | (k', s) :: t =>
    if k' = k then (k, addShardToSet s i) :: t else (k', s) :: upsertShard t k i

/-- One row of the `processBuildIndexJob` value-collection loop
(queue consumer): skip NULL and undefined cells, otherwise add the
shard to the `String(value)` bucket. -/
def buildJobStep (column : String) (shardId : Nat)
    (acc : List (String × List Nat)) (row : JRow) : List (String × List Nat) :=
  let value := jrowLookup row column
  if isNullish value then acc
  else upsertShard acc (jsString (value.getD .undef)) shardId

/-- A virtual index as the dedupe code reads it (`columns` already
parsed from its JSON storage form). -/
structure VirtualIndex where
  index_name : String
  columns : List String
  deriving DecidableEq, Repr

/-- An index-maintenance operation. -/
inductive IndexOp where
  | add
  | remove
  deriving DecidableEq, Repr

/-- One entry of `IndexMaintenanceEventJob.events`. -/
structure IndexEvent where
  index_name : String
  key_value : String
  shard_id : Nat
  operation : IndexOp
  deriving DecidableEq, Repr

/-- Lookup in the shard-keyed rows `Map`. -/
def mapLookupRows (m : List (Nat × List JRow)) (k : Nat) : Option (List JRow) :=
  (m.find? (fun p => p.1 = k)).map (fun p => p.2)

/-- The first pass of `dedupeUpdatedRowsToEvents`: collect
`"index_name:key_value" → set of shard ids` over every shard, index
and row. -/
def collectGlobalValues (rowsMap : List (Nat × List JRow))
    (virtualIndexes : List VirtualIndex) : List (String × List Nat) :=
  rowsMap.foldl (fun acc p =>
    virtualIndexes.foldl (fun acc idx =>
      p.2.foldl (fun acc row =>
        match buildIndexKeyValue row idx.columns with
        | some keyValue => upsertShard acc (idx.index_name ++ ":" ++ keyValue) p.1
        | none => acc) acc) acc) []

/-- A per-shard `Set` of key values (`shardOldValues` /
`shardNewValues`). -/
def addToStringSet (s : List String) (k : String) : List String :=
  if s.contains k then s else s ++ [k]

/-- Collect the key values of one shard's rows for one index. -/
def collectShardValues (rows : List JRow) (columns : List String) : List String :=
  rows.foldl (fun s row =>
    match buildIndexKeyValue row columns with
    | some keyValue => addToStringSet s keyValue
    | none => s) []

/-- `eventMap.set`: replace in place when the event key exists, append
otherwise. -/
def eventMapSet (m : List (String × IndexEvent)) (k : String) (e : IndexEvent) :
    List (String × IndexEvent) :=
  match m with
  | [] => [(k, e)]
  | (k', e') :: t =>
    if k' = k then (k, e) :: t else (k', e') :: eventMapSet t k e

/-- The remove-side loop body of the second pass: queue a removal only
when the value is absent from `globalNewValues`. -/
def removePassStep (globalNewValues : List (String × List Nat))
    (shardNewValues : List String) (idx : VirtualIndex) (shardId : Nat)
    (em : List (String × IndexEvent)) (value : String) :
    List (String × IndexEvent) :=
  if shardNewValues.contains value then em
  else
    let globalShards := (mapLookupS globalNewValues (idx.index_name ++ ":" ++ value)).getD []
    if globalShards.length = 0 then
      eventMapSet em (idx.index_name ++ ":" ++ value ++ ":" ++ toString shardId)
        ⟨idx.index_name, value, shardId, .remove⟩
    else em

/-- The add-side loop body of the second pass: queue an addition only
when the value has no `globalOldValues` entry. -/
def addPassStep (globalOldValues : List (String × List Nat))
    (shardOldValues : List String) (idx : VirtualIndex) (shardId : Nat)
    (em : List (String × IndexEvent)) (value : String) :
    List (String × IndexEvent) :=
  if shardOldValues.contains value then em
  else if (mapLookupS globalOldValues (idx.index_name ++ ":" ++ value)).isSome then em
  else
    eventMapSet em (idx.index_name ++ ":" ++ value ++ ":" ++ toString shardId)
      ⟨idx.index_name, value, shardId, .add⟩

/-- `dedupeUpdatedRowsToEvents` (`crud/update.ts`): global old/new
value collection, then per-shard difference with global checks. -/
def dedupeUpdatedRowsToEvents (oldRows newRows : List (Nat × List JRow))
    (virtualIndexes : List VirtualIndex) : List IndexEvent :=
  let globalOldValues := collectGlobalValues oldRows virtualIndexes
  let globalNewValues := collectGlobalValues newRows virtualIndexes
  let eventMap := oldRows.foldl (fun em p =>
    let newRowsList := (mapLookupRows newRows p.1).getD []
    virtualIndexes.foldl (fun em idx =>
      let shardOldValues := collectShardValues p.2 idx.columns
      let shardNewValues := collectShardValues newRowsList idx.columns
      let em := shardOldValues.foldl
        (removePassStep globalNewValues shardNewValues idx p.1) em
      shardNewValues.foldl
        (addPassStep globalOldValues shardOldValues idx p.1) em) em) []
  eventMap.map (fun p => p.2)

lemma any_nullish_of_mem (row : JRow) (columns : List String) (c : String)
    (hc : c ∈ columns) (hnull : isNullish (jrowLookup row c)) :
    (columns.map (fun col => jrowLookup row col)).any
      (fun v => decide (isNullish v)) = true := by
  rw [List.any_eq_true]
  exact ⟨jrowLookup row c, List.mem_map_of_mem _ hc, decide_eq_true hnull⟩

lemma buildIndexKeyValue_none_of_nullish (row : JRow) (columns : List String)
    (h : ∃ c ∈ columns, isNullish (jrowLookup row c)) :
    buildIndexKeyValue row columns = none := by
  obtain ⟨c, hc, hnull⟩ := h
  cases columns with
  | nil => cases hc
  | cons c0 rest =>
    cases rest with
    | nil =>
        have hcc : c = c0 := by simpa using hc
        subst hcc
        unfold buildIndexKeyValue
        dsimp only
        rw [if_pos hnull]
    | cons c1 rest2 =>
        unfold buildIndexKeyValue
        dsimp only
        rw [if_pos (any_nullish_of_mem row (c0 :: c1 :: rest2) c hc hnull)]

lemma extractKeyValueFromRow_eq_buildIndexKeyValue (columns : List String)
    (row : List BExpr) (indexColumns : List String) (params : List JSVal) :
    extractKeyValueFromRow columns row indexColumns params
      = buildIndexKeyValue (buildRowData columns row params []) indexColumns := by
  unfold extractKeyValueFromRow buildIndexKeyValue
  rfl

/-- C3. NULLs are never indexed: on every index-maintenance path a row
in which any indexed column is NULL (or missing) produces no key — the
UPDATE/DELETE capture key builder returns null, any produced key comes
only from rows whose indexed columns are all non-NULL, the INSERT-path
extractor returns null, and the index build job's collection loop
skips the row. -/
theorem c3_nulls_never_indexed :
    (∀ (row : JRow) (columns : List String),
      (∃ c ∈ columns, isNullish (jrowLookup row c)) →
      buildIndexKeyValue row columns = none) ∧
    (∀ (row : JRow) (columns : List String) (s : String),
      buildIndexKeyValue row columns = some s →
      ∀ c ∈ columns, ¬ isNullish (jrowLookup row c)) ∧
    (∀ (columns : List String) (row : List BExpr) (indexColumns : List String)
        (params : List JSVal),
      (∃ c ∈ indexColumns,
        isNullish (jrowLookup (buildRowData columns row params []) c)) →
      extractKeyValueFromRow columns row indexColumns params = none) ∧
    (∀ (column : String) (shardId : Nat) (acc : List (String × List Nat))
        (row : JRow),
      isNullish (jrowLookup row column) →
      buildJobStep column shardId acc row = acc) := by
  refine ⟨buildIndexKeyValue_none_of_nullish, ?_, ?_, ?_⟩
  · intro row columns s hsome c hc hnull
    rw [buildIndexKeyValue_none_of_nullish row columns ⟨c, hc, hnull⟩] at hsome
    cases hsome
  · intro columns row indexColumns params h
    rw [extractKeyValueFromRow_eq_buildIndexKeyValue]
    exact buildIndexKeyValue_none_of_nullish _ indexColumns h
  · intro column shardId acc row h
    unfold buildJobStep
    rw [if_pos h]

/-- C3 witness: a row with a NULL email produces no key on any path,
and the build job skips it. -/
theorem c3_witness :
    buildIndexKeyValue [("email", .null)] ["email"] = none ∧
    extractKeyValueFromRow ["id", "email"]
      [.literal (.int 1), .literal .null] ["email"] [] = none ∧
    buildJobStep "email" 0 [] [("email", .null)] = [] :=
  ⟨c3_nulls_never_indexed.1 [("email", .null)] ["email"]
      ⟨"email", by decide, by decide⟩,
    c3_nulls_never_indexed.2.2.1 ["id", "email"]
      [.literal (.int 1), .literal .null] ["email"] []
      ⟨"email", by decide, by decide⟩,
    c3_nulls_never_indexed.2.2.2 "email" 0 [] [("email", .null)] (by decide)⟩

/-- C8 witness: with two existing placeholders and two VALUES rows,
row 1 keeps its placeholder 1 verbatim and gains placeholder 2 + 1 = 3,
at an index at least params.length. -/
theorem c8_witness :
    (appendShardPlaceholders [[.placeholder 0], [.placeholder 1]] 2)[1]?
        = some [.placeholder 1, .placeholder 3] ∧
    (2 : Nat) ≤ 2 + 1 :=
  (c8_injectVirtualShard_preserves_placeholders [.int 10, .int 20] 7).2.2.2.1
    [[.placeholder 0], [.placeholder 1]] 1 [.placeholder 1] rfl

lemma foldl_preserve {α : Type} {β : Type} (P : α → Prop) (f : α → β → α)
    (hf : ∀ a b, P a → P (f a b)) :
    ∀ (l : List β) (a : α), P a → P (l.foldl f a) := by
  intro l
  induction l with
  | nil => exact fun a h => h
  | cons x t ih =>
      intro a h
      rw [List.foldl_cons]
      exact ih _ (hf a x h)

lemma addShardToSet_ne_nil (s : List Nat) (i : Nat) : addShardToSet s i ≠ [] := by
  unfold addShardToSet
  split
  · rename_i h
    intro hnil
    subst hnil
    simp at h
  · simp

/-- The accumulator map has a nonempty shard set under key `gk`. -/
def HasKey (acc : List (String × List Nat)) (gk : String) : Prop :=
  ∃ s, mapLookupS acc gk = some s ∧ s ≠ []

lemma mapLookupS_cons_self (k : String) (s : List Nat)
    (t : List (String × List Nat)) : mapLookupS ((k, s) :: t) k = some s := by
  unfold mapLookupS
  rw [List.find?_cons_of_pos _ (by simp)]
  rfl

lemma mapLookupS_cons_ne (k' k : String) (s : List Nat)
    (t : List (String × List Nat)) (h : k' ≠ k) :
    mapLookupS ((k', s) :: t) k = mapLookupS t k := by
  unfold mapLookupS
  rw [List.find?_cons_of_neg _ (by simp [h])]

lemma mapLookupS_upsertShard_self (m : List (String × List Nat)) (k : String)
    (i : Nat) : HasKey (upsertShard m k i) k := by
  induction m with
  | nil =>
      refine ⟨[i], ?_, by simp⟩
      show mapLookupS [(k, [i])] k = some [i]
      exact mapLookupS_cons_self k [i] []
  | cons p t ih =>
      obtain ⟨k', s'⟩ := p
      unfold upsertShard
      by_cases h : k' = k
      · rw [if_pos h]
        exact ⟨addShardToSet s' i, mapLookupS_cons_self k _ t,
          addShardToSet_ne_nil s' i⟩
      · rw [if_neg h]
        obtain ⟨s, hs, hne⟩ := ih
        exact ⟨s, by rw [mapLookupS_cons_ne k' k s' _ h]; exact hs, hne⟩

lemma mapLookupS_upsertShard_other (m : List (String × List Nat))
    (k' : String) (i : Nat) (k : String) (hk : k' ≠ k) :
    mapLookupS (upsertShard m k' i) k = mapLookupS m k := by
  induction m with
  | nil =>
      show mapLookupS [(k', [i])] k = mapLookupS [] k
      rw [mapLookupS_cons_ne k' k [i] [] hk]
  | cons p t ih =>
      obtain ⟨k'', s''⟩ := p
      unfold upsertShard
      by_cases h2 : k'' = k'
      · rw [if_pos h2, mapLookupS_cons_ne k' k _ t hk,
          mapLookupS_cons_ne k'' k s'' t (by rw [h2]; exact hk)]
      · rw [if_neg h2]
        by_cases h3 : k'' = k
        · subst h3
          rw [mapLookupS_cons_self, mapLookupS_cons_self]
        · rw [mapLookupS_cons_ne k'' k s'' _ h3,
            mapLookupS_cons_ne k'' k s'' t h3, ih]

lemma upsertShard_preserves_hasKey (m : List (String × List Nat))
    (k' : String) (i : Nat) (k : String) (h : HasKey m k) :
    HasKey (upsertShard m k' i) k := by
  by_cases hk : k' = k
  · subst hk
    exact mapLookupS_upsertShard_self m k' i
  · unfold HasKey
    rw [mapLookupS_upsertShard_other m k' i k hk]
    exact h

lemma collectGlobalValues_nonempty (rowsMap : List (Nat × List JRow))
    (virtualIndexes : List VirtualIndex) (p : Nat × List JRow)
    (idx : VirtualIndex) (row : JRow) (k : String)
    (hp : p ∈ rowsMap) (hidx : idx ∈ virtualIndexes) (hrow : row ∈ p.2)
    (hk : buildIndexKeyValue row idx.columns = some k) :
    HasKey (collectGlobalValues rowsMap virtualIndexes)
      (idx.index_name ++ ":" ++ k) := by
  obtain ⟨l1, l2, hsplit⟩ := List.append_of_mem hp
  obtain ⟨m1, m2, hisplit⟩ := List.append_of_mem hidx
  obtain ⟨r1, r2, hrsplit⟩ := List.append_of_mem hrow
  subst hsplit
  have hrowpres : ∀ (idx' : VirtualIndex) (sid : Nat)
      (acc : List (String × List Nat)) (r : JRow),
      HasKey acc (idx.index_name ++ ":" ++ k) →
      HasKey (match buildIndexKeyValue r idx'.columns with
              | some kv => upsertShard acc (idx'.index_name ++ ":" ++ kv) sid
              | none => acc) (idx.index_name ++ ":" ++ k) := by
    intro idx' sid acc r hP
    cases hbk : buildIndexKeyValue r idx'.columns with
    | none => exact hP
    | some kv => exact upsertShard_preserves_hasKey acc _ sid _ hP
  unfold collectGlobalValues
  rw [List.foldl_append, List.foldl_cons]
  refine foldl_preserve (fun acc => HasKey acc (idx.index_name ++ ":" ++ k))
    _ ?_ l2 _ ?_
  · intro acc q hP
    dsimp only
    refine foldl_preserve (fun acc => HasKey acc (idx.index_name ++ ":" ++ k))
      _ ?_ virtualIndexes acc hP
    intro acc' idx' hP'
    dsimp only
    exact foldl_preserve (fun acc => HasKey acc (idx.index_name ++ ":" ++ k))
      _ (hrowpres idx' q.1) q.2 acc' hP'
  · dsimp only
    rw [hisplit, List.foldl_append, List.foldl_cons]
    refine foldl_preserve (fun acc => HasKey acc (idx.index_name ++ ":" ++ k))
      _ ?_ m2 _ ?_
    · intro acc' idx' hP'
      dsimp only
      exact foldl_preserve (fun acc => HasKey acc (idx.index_name ++ ":" ++ k))
        _ (hrowpres idx' p.1) p.2 acc' hP'
    · dsimp only
      rw [hrsplit, List.foldl_append, List.foldl_cons]
      refine foldl_preserve (fun acc => HasKey acc (idx.index_name ++ ":" ++ k))
        _ (hrowpres idx p.1) r2 _ ?_
      dsimp only
      rw [hk]
      exact mapLookupS_upsertShard_self _ _ _

/-- Soundness of one queued event against the global value maps:
a `remove` has no surviving global new-value entry, an `add` has no
pre-existing global old-value entry. -/
def EventSound (gO gN : List (String × List Nat)) (e : IndexEvent) : Prop :=
  (e.operation = .remove →
    (mapLookupS gN (e.index_name ++ ":" ++ e.key_value)).getD [] = []) ∧
  (e.operation = .add →
    mapLookupS gO (e.index_name ++ ":" ++ e.key_value) = none)

/-- Every event in the event map is sound. -/
def AllSound (gO gN : List (String × List Nat))
    (em : List (String × IndexEvent)) : Prop :=
  ∀ q ∈ em, EventSound gO gN q.2

lemma eventMapSet_sound (gO gN : List (String × List Nat)) (k : String)
    (e : IndexEvent) :
    ∀ (m : List (String × IndexEvent)), AllSound gO gN m →
      EventSound gO gN e → AllSound gO gN (eventMapSet m k e) := by
  intro m
  induction m with
  | nil =>
      intro _ he q hq
      rw [show eventMapSet [] k e = [(k, e)] from rfl, List.mem_singleton] at hq
      rw [hq]
      exact he
  | cons p t ih =>
      intro hm he q hq
      obtain ⟨k', e'⟩ := p
      rw [show eventMapSet ((k', e') :: t) k e
            = if k' = k then (k, e) :: t
              else (k', e') :: eventMapSet t k e from rfl] at hq
      by_cases h : k' = k
      · rw [if_pos h, List.mem_cons] at hq
        rcases hq with hq | hq
        · rw [hq]; exact he
        · exact hm q (List.mem_cons_of_mem _ hq)
      · rw [if_neg h, List.mem_cons] at hq
        rcases hq with hq | hq
        · rw [hq]
          exact hm (k', e') (List.mem_cons_self _ _)
        · exact ih (fun r hr => hm r (List.mem_cons_of_mem _ hr)) he q hq

lemma removePassStep_sound (gO gN : List (String × List Nat))
    (sN : List String) (idx : VirtualIndex) (sid : Nat)
    (em : List (String × IndexEvent)) (v : String)
    (hm : AllSound gO gN em) :
    AllSound gO gN (removePassStep gN sN idx sid em v) := by
  unfold removePassStep
  by_cases h1 : sN.contains v = true
  · rw [if_pos h1]; exact hm
  · rw [if_neg h1]
    dsimp only
    by_cases h2 :
        ((mapLookupS gN (idx.index_name ++ ":" ++ v)).getD []).length = 0
    · rw [if_pos h2]
      refine eventMapSet_sound gO gN _ _ em hm ⟨fun _ => ?_, fun hadd => ?_⟩
      · exact List.length_eq_zero.mp h2
      · cases hadd
    · rw [if_neg h2]; exact hm

lemma addPassStep_sound (gO gN : List (String × List Nat))
    (sO : List String) (idx : VirtualIndex) (sid : Nat)
    (em : List (String × IndexEvent)) (v : String)
    (hm : AllSound gO gN em) :
    AllSound gO gN (addPassStep gO sO idx sid em v) := by
  unfold addPassStep
  by_cases h1 : sO.contains v = true
  · rw [if_pos h1]; exact hm
  · rw [if_neg h1]
    by_cases h2 : (mapLookupS gO (idx.index_name ++ ":" ++ v)).isSome = true
    · rw [if_pos h2]; exact hm
    · rw [if_neg h2]
      refine eventMapSet_sound gO gN _ _ em hm ⟨fun hrem => ?_, fun _ => ?_⟩
      · cases hrem
      · cases hopt : mapLookupS gO (idx.index_name ++ ":" ++ v) with
        | none => rfl
        | some s => rw [hopt] at h2; simp at h2

lemma dedupe_sound (oldRows newRows : List (Nat × List JRow))
    (virtualIndexes : List VirtualIndex) (e : IndexEvent)
    (he : e ∈ dedupeUpdatedRowsToEvents oldRows newRows virtualIndexes) :
    EventSound (collectGlobalValues oldRows virtualIndexes)
      (collectGlobalValues newRows virtualIndexes) e := by
  unfold dedupeUpdatedRowsToEvents at he
  dsimp only at he
  rw [List.mem_map] at he
  obtain ⟨q, hq, hqe⟩ := he
  have hall : AllSound (collectGlobalValues oldRows virtualIndexes)
      (collectGlobalValues newRows virtualIndexes)
      (oldRows.foldl (fun em p =>
        virtualIndexes.foldl (fun em idx =>
          (collectShardValues ((mapLookupRows newRows p.1).getD [])
              idx.columns).foldl
            (addPassStep (collectGlobalValues oldRows virtualIndexes)
              (collectShardValues p.2 idx.columns) idx p.1)
            ((collectShardValues p.2 idx.columns).foldl
              (removePassStep (collectGlobalValues newRows virtualIndexes)
                (collectShardValues ((mapLookupRows newRows p.1).getD [])
                  idx.columns) idx p.1) em)) em) []) := by
    refine foldl_preserve (AllSound _ _) _ ?_ oldRows []
      (fun q hq => absurd hq (List.not_mem_nil q))
    intro em p hP
    dsimp only
    refine foldl_preserve (AllSound _ _) _ ?_ virtualIndexes em hP
    intro em' idx hP'
    dsimp only
    refine foldl_preserve (AllSound _ _) _ ?_ _ _
      (foldl_preserve (AllSound _ _) _ ?_ _ _ hP')
    · intro em'' v h''
      exact addPassStep_sound _ _ _ idx p.1 em'' v h''
    · intro em'' v h''
      exact removePassStep_sound _ _ _ idx p.1 em'' v h''
  rw [← hqe]
  exact hall q hq

/-- C4. UPDATE index-maintenance events are globally deduplicated
across shards: every `remove` event emitted by
`dedupeUpdatedRowsToEvents` is for a key value that no shard's
after-update rows still produce under the event's index, and every
`add` event is for a key value that no shard's before-update rows
produced under that index. -/
theorem c4_update_events_globally_deduplicated
    (oldRows newRows : List (Nat × List JRow))
    (virtualIndexes : List VirtualIndex) (e : IndexEvent)
    (he : e ∈ dedupeUpdatedRowsToEvents oldRows newRows virtualIndexes) :
    (e.operation = .remove →
      ∀ idx ∈ virtualIndexes, idx.index_name = e.index_name →
        ∀ p ∈ newRows, ∀ row ∈ p.2,
          buildIndexKeyValue row idx.columns ≠ some e.key_value) ∧
    (e.operation = .add →
      ∀ idx ∈ virtualIndexes, idx.index_name = e.index_name →
        ∀ p ∈ oldRows, ∀ row ∈ p.2,
          buildIndexKeyValue row idx.columns ≠ some e.key_value) := by
  have hs := dedupe_sound oldRows newRows virtualIndexes e he
  constructor
  · intro hop idx hidx hname p hp row hrow hkey
    have hkk := collectGlobalValues_nonempty newRows virtualIndexes
      p idx row e.key_value hp hidx hrow hkey
    unfold HasKey at hkk
    obtain ⟨s, hls, hne⟩ := hkk
    have h0 := hs.1 hop
    rw [hname] at hls
    rw [hls] at h0
    exact hne h0
  · intro hop idx hidx hname p hp row hrow hkey
    have hkk := collectGlobalValues_nonempty oldRows virtualIndexes
      p idx row e.key_value hp hidx hrow hkey
    unfold HasKey at hkk
    obtain ⟨s, hls, hne⟩ := hkk
    have h0 := hs.2 hop
    rw [hname] at hls
    rw [hls] at h0
    cases h0

/-- C4 witness: with old state email=a on shard 0 and email=b on
shard 1, and new state email=b on both shards, the remove event for
key "a" on shard 0 is emitted, and indeed no after-update row still
produces key "a". -/
theorem c4_witness :
    buildIndexKeyValue [("email", JSVal.str "b")] ["email"] ≠ some "a" :=
  (c4_update_events_globally_deduplicated
      [(0, [[("email", JSVal.str "a")]]), (1, [[("email", JSVal.str "b")]])]
      [(0, [[("email", JSVal.str "b")]]), (1, [[("email", JSVal.str "b")]])]
      [⟨"idx_email", ["email"]⟩]
      ⟨"idx_email", "a", 0, IndexOp.remove⟩
      (by decide)).1 rfl
    ⟨"idx_email", ["email"]⟩ (by decide) rfl
    (0, [[("email", JSVal.str "b")]]) (by decide)
    [("email", JSVal.str "b")] (by decide)

end Engine

namespace Parser

/-- The single-quote character (code 39). -/
def squote : Char := Char.ofNat 39

/-- The backslash character (code 92). -/
def bslash : Char := Char.ofNat 92

/-- The single-quote branch of `extractQuotedLiterals` (dist/parser.js):
starting just after an opening quote, consume characters until the
closing quote, treating a doubled quote as an escaped quote that stays
in the literal verbatim, and a backslash (escapes are allowed for
single quotes) as keeping both the backslash and the following
character; return the consumed characters (closing quote included) and
the rest of the input, or none when the literal is unterminated. -/
def scanSingleQuote : List Char → Option (List Char × List Char)
  | [] => none
  | c :: rest =>
    if c = squote then
      match rest with
      | [] => some ([c], [])
      | c2 :: rest2 =>
        if c2 = squote then
          match scanSingleQuote rest2 with
          | some (lit, rem) => some (c :: c2 :: lit, rem)
          | none => none
        else some ([c], c2 :: rest2)
    else if c = bslash then
      match rest with
      | [] => none
      | c2 :: rest2 =>
        match scanSingleQuote rest2 with
        | some (lit, rem) => some (c :: c2 :: lit, rem)
        | none => none
    else
      match scanSingleQuote rest with
      | some (lit, rem) => some (c :: lit, rem)
      | none => none

/-- `parsePrimary` on a string token (dist/parser.js): the Literal
value is `raw.slice(1, -1)`, the raw token with the outer quotes
removed and nothing else changed. -/
def literalValue (raw : List Char) : List Char := (raw.drop 1).dropLast

/-- Modelled from the spec: resolve the escapes of a single-quoted
body, collapsing a doubled quote to one quote and a backslash escape
to the escaped character. -/
def specUnescape : List Char → List Char
  | [] => []
  | [c] => [c]
  | c :: c2 :: rest =>
    if c = squote then
      if c2 = squote then squote :: specUnescape rest
      else c :: specUnescape (c2 :: rest)
    else if c = bslash then c2 :: specUnescape rest
    else c :: specUnescape (c2 :: rest)

/-- One well-formed piece of a single-quoted literal body: an ordinary
character, an escaped (doubled) quote, or a backslash escape. -/
inductive QItem where
  | chr (c : Char)
  | dquote
  | esc (c : Char)
  deriving DecidableEq, Repr

/-- The source characters of one body piece. -/
def renderItem : QItem → List Char
  | .chr c => [c]
  | .dquote => [squote, squote]
  | .esc c => [bslash, c]

/-- The source characters of a literal body. -/
def renderBody : List QItem → List Char
  | [] => []
  | it :: items => renderItem it ++ renderBody items

/-- An ordinary character piece may not itself be a quote or a
backslash. -/
def QItemOK : QItem → Prop := fun it =>
  match it with
  | QItem.chr c => c ≠ squote ∧ c ≠ bslash
  | QItem.dquote => True
  | QItem.esc _ => True

instance : DecidablePred QItemOK := fun it =>
  match it with
  | QItem.chr c => inferInstanceAs (Decidable (c ≠ squote ∧ c ≠ bslash))
  | QItem.dquote => inferInstanceAs (Decidable True)
  | QItem.esc _ => inferInstanceAs (Decidable True)

lemma literalValue_wrap (body : List Char) :
    literalValue (squote :: (body ++ [squote])) = body := by
  unfold literalValue
  simp

lemma scanSingleQuote_renderBody (items : List QItem) (rest : List Char)
    (hok : ∀ it ∈ items, QItemOK it)
    (hrest : rest.head? ≠ some squote) :
    scanSingleQuote (renderBody items ++ squote :: rest)
      = some (renderBody items ++ [squote], rest) := by
  induction items with
  | nil =>
      show scanSingleQuote (squote :: rest) = some ([squote], rest)
      unfold scanSingleQuote
      rw [if_pos rfl]
      cases rest with
      | nil => rfl
      | cons c2 r2 =>
          dsimp only
          have hne : ¬(c2 = squote) := by
            intro h
            exact hrest (by rw [h]; rfl)
          rw [if_neg hne]
  | cons it items ih =>
      have hoktail : ∀ x ∈ items, QItemOK x :=
        fun x hx => hok x (List.mem_cons_of_mem _ hx)
      have hscan := ih hoktail
      cases it with
      | chr c =>
          have h12 : c ≠ squote ∧ c ≠ bslash :=
            hok (QItem.chr c) (List.mem_cons_self _ _)
          show scanSingleQuote (c :: (renderBody items ++ squote :: rest))
              = some (c :: (renderBody items ++ [squote]), rest)
          unfold scanSingleQuote
          rw [if_neg h12.1, if_neg h12.2, hscan]
      | dquote =>
          show scanSingleQuote
              (squote :: squote :: (renderBody items ++ squote :: rest))
              = some (squote :: squote :: (renderBody items ++ [squote]), rest)
          unfold scanSingleQuote
          rw [if_pos rfl]
          dsimp only
          rw [if_pos rfl, hscan]
      | esc c =>
          show scanSingleQuote
              (bslash :: c :: (renderBody items ++ squote :: rest))
              = some (bslash :: c :: (renderBody items ++ [squote]), rest)
          have hbs : ¬(bslash = squote) := by decide
          unfold scanSingleQuote
          rw [if_neg hbs, if_pos rfl]
          dsimp only
          rw [hscan]

/-- C9 counterexample: scanning the body of the literal whose source
body reads i, t, two quotes, s, the scanner keeps the doubled quote
verbatim, `parsePrimary` strips only the outer quotes, so the Literal
value keeps the doubled quote, while the claimed value (doubled quote
collapsed) differs. -/
theorem c9_counterexample :
    scanSingleQuote
        ([Char.ofNat 105, Char.ofNat 116, squote, squote, Char.ofNat 115]
          ++ [squote])
      = some ([Char.ofNat 105, Char.ofNat 116, squote, squote,
          Char.ofNat 115, squote], []) ∧
    literalValue (squote :: [Char.ofNat 105, Char.ofNat 116, squote, squote,
        Char.ofNat 115, squote])
      = [Char.ofNat 105, Char.ofNat 116, squote, squote, Char.ofNat 115] ∧
    specUnescape [Char.ofNat 105, Char.ofNat 116, squote, squote,
        Char.ofNat 115]
      = [Char.ofNat 105, Char.ofNat 116, squote, Char.ofNat 115] ∧
    [Char.ofNat 105, Char.ofNat 116, squote, squote, Char.ofNat 115]
      ≠ [Char.ofNat 105, Char.ofNat 116, squote, Char.ofNat 115] := by
  refine ⟨?_, by decide, by decide, by decide⟩
  decide

/-- C9 amended: the Literal value of a single-quoted string is the
quoted contents verbatim: the scanner keeps a doubled quote doubled
and keeps a backslash escape as backslash plus character (escapes only
decide where the literal ends), and `parsePrimary` removes only the
two outer quotes. -/
theorem c9_amended_literal_value_verbatim (items : List QItem)
    (rest : List Char) (hok : ∀ it ∈ items, QItemOK it)
    (hrest : rest.head? ≠ some squote) :
    scanSingleQuote (renderBody items ++ squote :: rest)
      = some (renderBody items ++ [squote], rest) ∧
    literalValue (squote :: (renderBody items ++ [squote]))
      = renderBody items :=
  ⟨scanSingleQuote_renderBody items rest hok hrest,
    literalValue_wrap (renderBody items)⟩

/-- C9 amended witness: a body with an ordinary character, a doubled
quote and a backslash escape scans to itself and the value keeps it
verbatim. -/
theorem c9_amended_witness :
    scanSingleQuote
        (renderBody [QItem.chr (Char.ofNat 97), QItem.dquote,
            QItem.esc (Char.ofNat 110)] ++ squote :: [])
      = some (renderBody [QItem.chr (Char.ofNat 97), QItem.dquote,
            QItem.esc (Char.ofNat 110)] ++ [squote], []) ∧
    literalValue (squote :: (renderBody [QItem.chr (Char.ofNat 97),
            QItem.dquote, QItem.esc (Char.ofNat 110)] ++ [squote]))
      = renderBody [QItem.chr (Char.ofNat 97), QItem.dquote,
            QItem.esc (Char.ofNat 110)] :=
  c9_amended_literal_value_verbatim
    [QItem.chr (Char.ofNat 97), QItem.dquote, QItem.esc (Char.ofNat 110)]
    [] (by decide) (by decide)

end Parser

end BigDaddy
